import Mathlib

/-!
Verification of the data-transformation pipeline of `dashboard.py`
(bike-sharing dashboard): the loader (`load_data`), the category
enrichment (month/weekday/season/weather/year label columns), the
year/season/weather filters, the summary percentage metrics, the
group-by-mean aggregations and the melt reshape.

Python/pandas semantics modelled here:
  - a pandas cell is an int, a string, a rational (floats are modelled
    exactly as rationals where the float value is exact) or NaN;
  - `Series.map(dict)` yields NaN on a key missing from the dict;
  - `calendar.month_name[x]` is Python list indexing on a 13-element
    list (entry 0 is the empty string): negative indices wrap, indices
    out of range raise IndexError;
  - `groupby(col)[m].mean()` sorts the distinct non-NaN keys
    ascending and averages the metric within each group;
  - `pd.Categorical(...); sort_values(...)` reorders rows by the
    position of the key in the category list, keys not in the list
    going last in their previous order;
  - numpy integer division `a / b` with `b = 0` gives NaN when
    `a = 0` and signed infinity otherwise (no exception);
  - indexing a Python `str` with a string key raises TypeError.
-/

/-- A Python scalar as it occurs in a dataframe cell. -/
inductive PyV where
  | int (n : Int)
  | str (s : String)
  | rat (q : ℚ)
  | nan
deriving DecidableEq, Repr

/-- Python truthiness of a scalar (`if selected_year:`); note that
NaN is truthy in Python. -/
def pyTruthy : PyV → Bool
  | .int n => decide (n ≠ 0)
  | .str s => decide (s ≠ "")
  | .rat q => decide (q ≠ 0)
  | .nan => true

/-- Pandas elementwise equality used by boolean-mask filtering:
NaN compares unequal to everything (itself included). -/
def pyEq : PyV → PyV → Bool
  | .nan, _ => false
  | _, .nan => false
  | a, b => decide (a = b)

/-- Python exceptions that the modelled code can raise. -/
inductive PyErr where
  | typeError
  | indexError
  | keyError
deriving DecidableEq, Repr

/-- `calendar.month_name` : a 13-entry sequence whose entry 0 is `''`. -/
def month_name_list : List String :=
  ["", "January", "February", "March", "April", "May", "June", "July",
   "August", "September", "October", "November", "December"]

/-- `calendar.month_name[x]` with Python list-indexing semantics:
indices 0..12 index directly, -13..-1 wrap, anything else raises
IndexError. -/
def pyMonthName (i : Int) : Except PyErr String :=
  if 0 ≤ i ∧ i < 13 then .ok (month_name_list.getD i.toNat "")
  else if -13 ≤ i ∧ i < 0 then .ok (month_name_list.getD (i + 13).toNat "")
  else .error .indexError

/-- `weekday_mapping` of `load_data` (Sunday=0 convention). -/
def weekday_mapping : List (Int × String) :=
  [(0, "Sunday"), (1, "Monday"), (2, "Tuesday"), (3, "Wednesday"),
   (4, "Thursday"), (5, "Friday"), (6, "Saturday")]

/-- `season_mapping` of `load_data`. -/
def season_mapping : List (Int × String) :=
  [(1, "Spring"), (2, "Summer"), (3, "Fall"), (4, "Winter")]

/-- `weather_mapping` of `load_data`. -/
def weather_mapping : List (Int × String) :=
  [(1, "Clear/Few clouds"), (2, "Mist/Cloudy"), (3, "Light Snow/Rain"),
   (4, "Heavy Rain/Ice/Storm")]

/-- the year mapping `{0: 2011, 1: 2012}` of `load_data`. -/
def year_mapping : List (Int × Int) :=
  [(0, 2011), (1, 2012)]

/-- `Series.map(dict)` for a dict with string values: a missing key
yields NaN, never an error. -/
def pyMapS (m : List (Int × String)) (x : Int) : PyV :=
  match m.find? (fun p => decide (p.1 = x)) with
  | some p => .str p.2
  | none => .nan

/-- `Series.map(dict)` for a dict with int values: a missing key
yields NaN, never an error. -/
def pyMapI (m : List (Int × Int)) (x : Int) : PyV :=
  match m.find? (fun p => decide (p.1 = x)) with
  | some p => .int p.2
  | none => .nan

/-- One raw data row of `main_data.csv` with the columns the script
uses (`dteday` kept as its text form). -/
structure Row where
  dteday : String
  season : Int
  weathersit : Int
  mnth : Int
  weekday : Int
  yr : Int
  temp : ℚ
  hum : ℚ
  casual : Int
  registered : Int
  cnt : Int
  workingday : Int
deriving DecidableEq, Repr

/-- A row after the enrichment block of `load_data` (lines 27-48):
the raw columns plus the five derived label columns. -/
structure ERow where
  dteday : String
  season : Int
  weathersit : Int
  mnth : Int
  weekday : Int
  yr : Int
  temp : ℚ
  hum : ℚ
  casual : Int
  registered : Int
  cnt : Int
  workingday : Int
  month_name : String
  weekday_name : PyV
  season_cat : PyV
  weather_cat : PyV
  year : PyV
deriving DecidableEq, Repr

/-- Row-level reading of the enrichment block of `load_data`
(lines 27-48): `month_name` via `calendar.month_name` indexing (can
raise IndexError), the other four derived columns via `.map` on the
fixed dicts (NaN on out-of-domain codes). -/
def enrichRow (r : Row) : Except PyErr ERow :=
  (pyMonthName r.mnth).map (fun mn =>
    { dteday := r.dteday, season := r.season, weathersit := r.weathersit,
      mnth := r.mnth, weekday := r.weekday, yr := r.yr, temp := r.temp,
      hum := r.hum, casual := r.casual, registered := r.registered,
      cnt := r.cnt, workingday := r.workingday,
      month_name := mn,
      weekday_name := pyMapS weekday_mapping r.weekday,
      season_cat := pyMapS season_mapping r.season,
      weather_cat := pyMapS weather_mapping r.weathersit,
      year := pyMapI year_mapping r.yr })

/-! ## The loader (`load_data`, lines 21-25)

Line 24 of the source is `day_df = file_path`: the variable that the
rest of the function treats as a dataframe is bound to the path
string itself (`pd.read_csv` is never called).  Line 25 then
evaluates `day_df['dteday']`, i.e. indexes a Python `str` with a
string key, which raises TypeError unconditionally; everything after
line 25 in the function body is unreachable. -/

/-- Indexing a Python `str` with a string key: always TypeError
("string indices must be integers"), hence the `Empty` success type. -/
def strGetItem (_s : String) (_key : String) : Except PyErr Empty :=
  .error .typeError

/-- `os.path.join(current_dir, 'main_data.csv')` (line 23). -/
def os_path_join (a : String) (b : String) : String :=
  a ++ "/" ++ b

/-- `load_data` (lines 21-25 of the source): binds `day_df` to the
path string (line 24) and then evaluates `day_df['dteday']`
(line 25), whose failure makes the rest of the body unreachable. -/
def load_data (current_dir : String) : Except PyErr (List ERow) :=
  let file_path := os_path_join current_dir "main_data.csv"
  let day_df := file_path
  (strGetItem day_df "dteday").map Empty.elim

/-! ## Summary percentage metrics (lines 96-98) -/

/-- `filtered_df['casual'].sum()`. -/
def sumCasual (t : List ERow) : Int :=
  (t.map (fun r => r.casual)).sum

/-- `filtered_df['registered'].sum()`. -/
def sumRegistered (t : List ERow) : Int :=
  (t.map (fun r => r.registered)).sum

/-- `filtered_df['cnt'].sum()`. -/
def sumCnt (t : List ERow) : Int :=
  (t.map (fun r => r.cnt)).sum

/-- A numpy floating value, with the exact rational case kept exact. -/
inductive PyFloat where
  | val (q : ℚ)
  | nan
  | inf
  | ninf
deriving DecidableEq, Repr

/-- numpy division of two integer sums: division by zero warns and
yields NaN (0/0) or a signed infinity, never an exception. -/
def pyDivScalar (a : Int) (b : Int) : PyFloat :=
  if b = 0 then (if a = 0 then .nan else if 0 < a then .inf else .ninf)
  else .val ((a : ℚ) / (b : ℚ))

/-- Multiplying a numpy float by a positive literal (the `* 100`). -/
def pfMul (x : PyFloat) (c : ℚ) : PyFloat :=
  match x with
  | .val q => .val (q * c)
  | .nan => .nan
  | .inf => if 0 < c then .inf else if c = 0 then .nan else .ninf
  | .ninf => if 0 < c then .ninf else if c = 0 then .nan else .inf

/-- Addition of numpy floats (only the finite and NaN cases are
exercised by the development). -/
def pfAdd : PyFloat → PyFloat → PyFloat
  | .val a, .val b => .val (a + b)
  | .nan, _ => .nan
  | _, .nan => .nan
  | .inf, .ninf => .nan
  | .ninf, .inf => .nan
  | .inf, _ => .inf
  | _, .inf => .inf
  | .ninf, _ => .ninf
  | _, .ninf => .ninf

/-- line 96: `(filtered_df['casual'].sum() / filtered_df['cnt'].sum()) * 100`. -/
def casual_pct (t : List ERow) : PyFloat :=
  pfMul (pyDivScalar (sumCasual t) (sumCnt t)) 100

/-- line 97: `(filtered_df['registered'].sum() / filtered_df['cnt'].sum()) * 100`. -/
def registered_pct (t : List ERow) : PyFloat :=
  pfMul (pyDivScalar (sumRegistered t) (sumCnt t)) 100

/-! ## The melt reshape (lines 230-238) -/

/-- A row of `user_type_df` (line 230/232): the projection of the
filtered table onto the id columns plus the two metric columns. -/
structure URow where
  dteday : String
  season_cat : PyV
  month_name : String
  weekday_name : PyV
  weather_cat : PyV
  temp : ℚ
  casual : Int
  registered : Int
deriving DecidableEq, Repr

/-- A row of `user_type_df_melted` (lines 233-238): the id columns
plus the synthetic `user_type` / `count` pair. -/
structure MRow where
  dteday : String
  season_cat : PyV
  month_name : String
  weekday_name : PyV
  weather_cat : PyV
  temp : ℚ
  user_type : String
  count : Int
deriving DecidableEq, Repr

/-- line 230/232: the column projection building `user_type_df`. -/
def user_type_df (t : List ERow) : List URow :=
  t.map (fun r =>
    { dteday := r.dteday, season_cat := r.season_cat,
      month_name := r.month_name, weekday_name := r.weekday_name,
      weather_cat := r.weather_cat, temp := r.temp,
      casual := r.casual, registered := r.registered })

/-- One molten row for a given user type and metric value. -/
def moltenRow (u : URow) (ty : String) (c : Int) : MRow :=
  { dteday := u.dteday, season_cat := u.season_cat,
    month_name := u.month_name, weekday_name := u.weekday_name,
    weather_cat := u.weather_cat, temp := u.temp,
    user_type := ty, count := c }

/-- `user_type_df.melt(id_vars=..., value_vars=['casual','registered'],
var_name='user_type', value_name='count')` (lines 233-238): pandas
stacks one block per value variable, the `casual` block first. -/
def user_type_df_melted (l : List URow) : List MRow :=
  l.map (fun u => moltenRow u "casual" u.casual) ++
  l.map (fun u => moltenRow u "registered" u.registered)

/-! ## Group-by-mean aggregation (lines 108, 129-132, 183)

`groupby(col)[m].mean().reset_index()` groups the rows on the
distinct non-NaN values of `col` sorted ascending and takes the mean
of `m` within each group; `pd.Categorical` plus `sort_values` then
reorders the result rows by the position of the key in the category
list, keys outside the category list going last in their previous
order. -/

/-- The string payload of a cell, `none` for non-string cells:
group keys are the string cells, NaN keys are dropped by `groupby`. -/
def asStr : PyV → Option String
  | .str s => some s
  | _ => none

/-- Lexicographic comparison of character lists by code point (the
order Python and pandas use on the strings occurring here). -/
def charListLt : List Char → List Char → Bool
  | [], [] => false
  | [], _ :: _ => true
  | _ :: _, [] => false
  | a :: as, b :: bs =>
      if a.toNat < b.toNat then true
      else if a.toNat = b.toNat then charListLt as bs
      else false

/-- `a ≤ b` on strings, from the lexicographic comparison. -/
def strLe (a : String) (b : String) : Bool :=
  !(charListLt b.data a.data)

/-- Insert a string into a sorted list of strings. -/
def insertSortedStr (x : String) : List String → List String
  | [] => [x]
  | y :: ys => if strLe x y then x :: y :: ys else y :: insertSortedStr x ys

/-- Sort a list of strings ascending (insertion sort). -/
def sortStrs : List String → List String
  | [] => []
  | x :: xs => insertSortedStr x (sortStrs xs)

/-- The mean of a list of rationals (`Series.mean`). -/
def listMean (l : List ℚ) : ℚ :=
  l.sum / (l.length : ℚ)

/-- The string keys occurring in a key column (NaN cells dropped). -/
def keyStrs (key : ERow → PyV) (t : List ERow) : List String :=
  t.filterMap (fun r => asStr (key r))

/-- The distinct non-NaN group keys sorted ascending, as `groupby`
enumerates the groups. -/
def groupKeys (key : ERow → PyV) (t : List ERow) : List String :=
  sortStrs ((keyStrs key t).dedup)

/-- The rows of the group with key `k`. -/
def groupRows (key : ERow → PyV) (k : String) (t : List ERow) : List ERow :=
  t.filter (fun r => decide (key r = PyV.str k))

/-- `t.groupby(key)[metric].mean().reset_index()`: one result row
per distinct non-NaN key, keys ascending, metric averaged within the
group. -/
def groupbyMean (key : ERow → PyV) (metric : ERow → ℚ) (t : List ERow) :
    List (String × ℚ) :=
  (groupKeys key t).map
    (fun k => (k, listMean ((groupRows key k t).map metric)))

/-- The `cnt` metric column as the rational the mean is taken of. -/
def cntQ (r : ERow) : ℚ :=
  (r.cnt : ℚ)

/-- `pd.Categorical(res, categories=order); sort_values`: result
rows whose key is in `order` first, in the order of `order`; rows
with a key outside `order` after them in their previous order. -/
def catSort (order : List String) (res : List (String × ℚ)) :
    List (String × ℚ) :=
  (order.filterMap (fun k => res.find? (fun p => decide (p.1 = k)))) ++
  res.filter (fun p => !(order.contains p.1))

/-- `month_order = list(calendar.month_name)[1:]` (lines 109, 331). -/
def month_order : List String :=
  month_name_list.drop 1

/-- `days_order` (lines 130, 281). -/
def days_order : List String :=
  ["Monday", "Tuesday", "Wednesday", "Thursday", "Friday", "Saturday",
   "Sunday"]

/-- `monthly_data` (lines 108-111): group-by-mean on `month_name`
followed by the categorical reorder on calendar month order. -/
def monthly_data (t : List ERow) : List (String × ℚ) :=
  catSort month_order (groupbyMean (fun r => PyV.str r.month_name) cntQ t)

/-- `weekday_data` (lines 129-132): group-by-mean on `weekday_name`
followed by the categorical reorder on Monday-first order. -/
def weekday_data (t : List ERow) : List (String × ℚ) :=
  catSort days_order (groupbyMean (fun r => r.weekday_name) cntQ t)

/-- `weather_data` (line 183): group-by-mean on `weather_cat`, no
categorical reorder (keys stay in ascending order). -/
def weather_data (t : List ERow) : List (String × ℚ) :=
  groupbyMean (fun r => r.weather_cat) cntQ t

/-- `weekday_name` is either NaN or one of the seven day names: the
decidable form of what enrichment guarantees for the key column. -/
def weekdayNameOk (r : ERow) : Bool :=
  match r.weekday_name with
  | .str s => days_order.contains s
  | .nan => true
  | _ => false

/-! ## Sidebar options and the year filter (lines 63-64, 67, 71, 75-77) -/

/-- `Series.unique().tolist()`: distinct values in first-seen order. -/
def uniqueFSAux (seen : List PyV) : List PyV → List PyV
  | [] => []
  | v :: rest =>
      if seen.contains v then uniqueFSAux seen rest
      else v :: uniqueFSAux (v :: seen) rest

/-- `Series.unique().tolist()` over a whole column. -/
def uniqueFS (l : List PyV) : List PyV :=
  uniqueFSAux [] l

/-- line 63: `year_options = df['year'].unique().tolist()` — note:
no `'All'` entry is prepended. -/
def year_options (t : List ERow) : List PyV :=
  uniqueFS (t.map (fun r => r.year))

/-- line 67: `season_options = ['All'] + df['season_cat'].unique().tolist()`. -/
def season_options (t : List ERow) : List PyV :=
  PyV.str "All" :: uniqueFS (t.map (fun r => r.season_cat))

/-- line 71: `weather_options = ['All'] + df['weather_cat'].unique().tolist()`. -/
def weather_options (t : List ERow) : List PyV :=
  PyV.str "All" :: uniqueFS (t.map (fun r => r.weather_cat))

/-- lines 76-77: `if selected_year: filtered_df =
filtered_df[filtered_df['year'] == selected_year]` — the guard is
Python truthiness of the selected value, the mask is pandas
elementwise equality. -/
def yearFiltered (t : List ERow) (sel : PyV) : List ERow :=
  if pyTruthy sel then t.filter (fun r => pyEq r.year sel) else t

/-- A sample enriched row (the enrichment of a raw row with
`season=1`, `weathersit=1`, `casual=10`, `registered=90`, `cnt=100`),
used to instantiate proved statements at a concrete input. -/
def sampleERow : ERow :=
  { dteday := "2011-01-01", season := 1, weathersit := 1, mnth := 1,
    weekday := 6, yr := 0, temp := 0, hum := 0, casual := 10,
    registered := 90, cnt := 100, workingday := 0,
    month_name := "January", weekday_name := .str "Saturday",
    season_cat := .str "Spring", weather_cat := .str "Clear/Few clouds",
    year := .int 2011 }

/-- A second sample enriched row with a different weekday, used to
instantiate permutation statements. -/
def sampleERow2 : ERow :=
  { dteday := "2011-01-02", season := 1, weathersit := 2, mnth := 1,
    weekday := 0, yr := 0, temp := 0, hum := 1, casual := 5,
    registered := 45, cnt := 50, workingday := 1,
    month_name := "January", weekday_name := .str "Sunday",
    season_cat := .str "Spring", weather_cat := .str "Mist/Cloudy",
    year := .int 2011 }

/-- First row of the concrete two-row scenario:
`{season=1, weather=1, casual=10, registered=90, cnt=100}`. -/
def rowW1 : Row :=
  { dteday := "2011-01-01", season := 1, weathersit := 1, mnth := 1,
    weekday := 6, yr := 0, temp := 0, hum := 0, casual := 10,
    registered := 90, cnt := 100, workingday := 0 }

/-- Second row of the concrete two-row scenario:
`{season=1, weather=2, casual=5, registered=45, cnt=50}`. -/
def rowW2 : Row :=
  { dteday := "2011-01-02", season := 1, weathersit := 2, mnth := 1,
    weekday := 0, yr := 0, temp := 0, hum := 0, casual := 5,
    registered := 45, cnt := 50, workingday := 1 }

/-- The two-row scenario table after enrichment. -/
def tabW : List ERow :=
  [rowW1, rowW2].filterMap (fun r => (enrichRow r).toOption)

/-- A raw row whose `season` code 5 is outside the 1..4 domain of
`season_mapping` (all other fields in range). -/
def rowS5 : Row :=
  { dteday := "2011-01-01", season := 5, weathersit := 1, mnth := 1,
    weekday := 0, yr := 0, temp := 0, hum := 0, casual := 0,
    registered := 0, cnt := 0, workingday := 1 }

/-! ## Column-level view of the enrichment frame (lines 27-48)

The frame-shape claims (columns added, existing columns untouched)
are stated on an association-list dataframe: a list of named
columns, where assigning a column overwrites an existing column of
that name and appends a new named column otherwise, exactly as
`day_df['name'] = series` behaves. -/

/-- A dataframe column: the list of its cells. -/
abbrev Col : Type := List PyV

/-- A dataframe: named columns in order. -/
abbrev DF : Type := List (String × Col)

/-- The column names of a frame, in order. -/
def dfCols (df : DF) : List String :=
  df.map Prod.fst

/-- Reading a column by name (`df[c]` without the KeyError). -/
def dfGet (df : DF) (c : String) : Option Col :=
  (df.find? (fun p => decide (p.1 = c))).map Prod.snd

/-- `df[c]` as the source uses it: KeyError on a missing column. -/
def dfGetE (df : DF) (c : String) : Except PyErr Col :=
  match dfGet df c with
  | some v => .ok v
  | none => .error .keyError

/-- `df[c] = v`: overwrite an existing column of that name, append
a new named column otherwise. -/
def dfAssign (df : DF) (c : String) (v : Col) : DF :=
  if c ∈ dfCols df
  then df.map (fun p => if p.1 = c then (c, v) else p)
  else df ++ [(c, v)]

/-- `calendar.month_name[x]` applied to one cell: TypeError on a
non-integer cell, IndexError outside the indexable range. -/
def cellMonthName : PyV → Except PyErr PyV
  | .int n => (pyMonthName n).map PyV.str
  | _ => .error .typeError

/-- `day_df['mnth'].apply(lambda x: calendar.month_name[x])`
(line 28) over a whole column. -/
def applyMonthName : Col → Except PyErr Col
  | [] => .ok []
  | v :: rest => do
      let s ← cellMonthName v
      let r ← applyMonthName rest
      .ok (s :: r)

/-- `.map(dict)` over a column for a string-valued dict: non-int
cells and missing keys silently become NaN. -/
def mapColS (m : List (Int × String)) (col : Col) : Col :=
  col.map (fun v => match v with
    | .int n => pyMapS m n
    | _ => .nan)

/-- `.map(dict)` over a column for an int-valued dict. -/
def mapColI (m : List (Int × Int)) (col : Col) : Col :=
  col.map (fun v => match v with
    | .int n => pyMapI m n
    | _ => .nan)

/-- The enrichment block (lines 27-48) at frame level: five column
assignments, each computed from a raw column of the frame. -/
def enrich (df : DF) : Except PyErr DF := do
  let mnthCol ← dfGetE df "mnth"
  let monthCol ← applyMonthName mnthCol
  let df1 := dfAssign df "month_name" monthCol
  let wkCol ← dfGetE df1 "weekday"
  let df2 := dfAssign df1 "weekday_name" (mapColS weekday_mapping wkCol)
  let seCol ← dfGetE df2 "season"
  let df3 := dfAssign df2 "season_cat" (mapColS season_mapping seCol)
  let weCol ← dfGetE df3 "weathersit"
  let df4 := dfAssign df3 "weather_cat" (mapColS weather_mapping weCol)
  let yrCol ← dfGetE df4 "yr"
  .ok (dfAssign df4 "year" (mapColI year_mapping yrCol))

/-- The columns the spec requires of the input file. -/
def requiredCols : List String :=
  ["dteday", "season", "weathersit", "mnth", "weekday", "yr", "temp",
   "hum", "casual", "registered", "cnt", "workingday"]

/-- The five label columns the enrichment derives. -/
def derivedCols : List String :=
  ["month_name", "weekday_name", "season_cat", "weather_cat", "year"]

/-- A month cell that `calendar.month_name[x]` indexing accepts. -/
def cellMonthOk : PyV → Bool
  | .int n => decide (-13 ≤ n ∧ n < 13)
  | _ => false

/-- A one-row input frame with exactly the required columns. -/
def sampleDF : DF :=
  [("dteday", [.str "2011-01-01"]), ("season", [.int 1]),
   ("weathersit", [.int 1]), ("mnth", [.int 1]), ("weekday", [.int 6]),
   ("yr", [.int 0]), ("temp", [.rat 0]), ("hum", [.rat 0]),
   ("casual", [.int 10]), ("registered", [.int 90]), ("cnt", [.int 100]),
   ("workingday", [.int 0])]

/-! ## theorems -/

/-- C1: the spec says `load(path)` reads the delimited file at the
path into a table (LoadError when the file is missing, ParseError on
bad dates).  The code instead binds `day_df` to the path string
(line 24, `pd.read_csv` is never called), so line 25 raises
TypeError for every path, whether or not the file exists. -/
theorem load_data_raises_type_error (current_dir : String) :
    load_data current_dir = .error .typeError := by
  rfl

/-- C4 counterexample: on the empty filtered table the percentage
split evaluates to NaN for both components (0/0 in numpy), so the
claim that the computation "never produces NaN" is false. -/
theorem casual_pct_empty_is_nan :
    casual_pct ([] : List ERow) = PyFloat.nan ∧
    registered_pct ([] : List ERow) = PyFloat.nan := by
  exact ⟨rfl, rfl⟩

/-- C4 (amended): on a filtered table with zero rows the
casual/registered percentage split evaluates to NaN (silently
propagated to the display), and no divide-by-zero fault is raised;
there is no explicit "undefined" signal. -/
theorem pct_split_zero_rows_yields_nan (t : List ERow) (h : t.length = 0) :
    casual_pct t = PyFloat.nan ∧ registered_pct t = PyFloat.nan := by
  have ht : t = [] := List.length_eq_zero.mp h
  subst ht
  exact ⟨rfl, rfl⟩

/-- C4 witness: the amended statement applied to the empty table. -/
theorem pct_split_zero_rows_yields_nan_witness :
    casual_pct ([] : List ERow) = PyFloat.nan ∧
    registered_pct ([] : List ERow) = PyFloat.nan :=
  pct_split_zero_rows_yields_nan [] rfl

/-- Splitting a sum of a pointwise sum of two integer-valued maps. -/
theorem sum_map_add_int {α : Type} (f g : α → Int) (l : List α) :
    (l.map (fun a => f a + g a)).sum = (l.map f).sum + (l.map g).sum := by
  induction l with
  | nil => simp
  | cons a l ih => simp [ih]; ring

/-- C5: melting `user_type_df` produces exactly two molten rows per
input row (the `casual` block then the `registered` block), and the
molten `count` mass equals the summed `casual + registered` of the
original rows. -/
theorem melt_doubles_rows_and_preserves_mass (t : List ERow) :
    (user_type_df_melted (user_type_df t)).length = 2 * t.length ∧
    ((user_type_df_melted (user_type_df t)).map (fun m => m.count)).sum =
      (t.map (fun r => r.casual + r.registered)).sum := by
  constructor
  · simp [user_type_df_melted, user_type_df]
    omega
  · simp only [user_type_df_melted, user_type_df, List.map_append,
      List.sum_append, List.map_map]
    rw [sum_map_add_int (fun r : ERow => r.casual)
      (fun r : ERow => r.registered) t]
    rfl

/-- The row hypothesis `cnt = casual + registered` lifts to the three
column sums. -/
theorem sumCnt_split (t : List ERow)
    (h : ∀ r ∈ t, r.cnt = r.casual + r.registered) :
    sumCnt t = sumCasual t + sumRegistered t := by
  induction t with
  | nil => simp [sumCnt, sumCasual, sumRegistered]
  | cons a l ih =>
      simp only [sumCnt, sumCasual, sumRegistered, List.map_cons,
        List.sum_cons] at *
      have ha := h a (by simp)
      have hl := ih (fun r hr => h r (by simp [hr]))
      omega

/-- C9: when every row satisfies `cnt = casual + registered` and the
total is nonzero, the two displayed percentages sum to exactly 100 in
exact rational arithmetic. -/
theorem pct_split_sums_to_100 (t : List ERow)
    (hrow : ∀ r ∈ t, r.cnt = r.casual + r.registered)
    (hnz : sumCnt t ≠ 0) :
    pfAdd (casual_pct t) (registered_pct t) = PyFloat.val 100 := by
  have hsum : sumCnt t = sumCasual t + sumRegistered t := sumCnt_split t hrow
  have hc : ((sumCnt t : Int) : ℚ) ≠ 0 := by
    exact_mod_cast hnz
  simp only [casual_pct, registered_pct, pyDivScalar, if_neg hnz, pfMul, pfAdd]
  congr 1
  have h100 : ((sumCasual t : Int) : ℚ) + ((sumRegistered t : Int) : ℚ)
      = ((sumCnt t : Int) : ℚ) := by
    rw [hsum]; push_cast; ring
  field_simp
  linarith [h100]

/-- C9 witness: the percentage identity at a concrete one-row table. -/
theorem pct_split_sums_to_100_witness :
    pfAdd (casual_pct [sampleERow]) (registered_pct [sampleERow])
      = PyFloat.val 100 :=
  pct_split_sums_to_100 [sampleERow] (by decide) (by decide)

/-- C3 counterexample: on a row with season code 5 the enrichment
does not fail with any error: it succeeds and silently stores a
missing value (NaN) in `season_cat`, because `Series.map(dict)`
yields NaN on a missing key. -/
theorem enrich_season5_succeeds_with_nan :
    (enrichRow rowS5).isOk = true ∧
    (enrichRow rowS5).toOption.map ERow.season_cat = some PyV.nan := by
  constructor
  · rfl
  · rfl

/-- C3 (amended): for season codes 1..4 the enrichment yields
exactly the corresponding label among Spring/Summer/Fall/Winter; for
a season code outside 1..4 it does not error but silently stores NaN
in `season_cat` (the month code is assumed inside the range that
`calendar.month_name` indexing accepts, so enrichment succeeds). -/
theorem season_mapping_in_range_unique_label (r : Row)
    (hm1 : -13 ≤ r.mnth) (hm2 : r.mnth < 13) :
    ∃ e, enrichRow r = .ok e ∧
      (r.season = 1 → e.season_cat = PyV.str "Spring") ∧
      (r.season = 2 → e.season_cat = PyV.str "Summer") ∧
      (r.season = 3 → e.season_cat = PyV.str "Fall") ∧
      (r.season = 4 → e.season_cat = PyV.str "Winter") ∧
      (¬ (1 ≤ r.season ∧ r.season ≤ 4) → e.season_cat = PyV.nan) := by
  have hok : ∃ mn, pyMonthName r.mnth = .ok mn := by
    unfold pyMonthName
    by_cases hc : 0 ≤ r.mnth ∧ r.mnth < 13
    · rw [if_pos hc]; exact ⟨_, rfl⟩
    · rw [if_neg hc, if_pos (⟨hm1, by omega⟩ : -13 ≤ r.mnth ∧ r.mnth < 0)]
      exact ⟨_, rfl⟩
  obtain ⟨mn, hmn⟩ := hok
  refine ⟨_, by rw [enrichRow, hmn]; rfl, ?_, ?_, ?_, ?_, ?_⟩
  · intro hs; simp only [pyMapS, season_mapping, hs]; rfl
  · intro hs; simp only [pyMapS, season_mapping, hs]; rfl
  · intro hs; simp only [pyMapS, season_mapping, hs]; rfl
  · intro hs; simp only [pyMapS, season_mapping, hs]; rfl
  · intro hs
    have h1 : ¬ ((1 : Int) = r.season) := by omega
    have h2 : ¬ ((2 : Int) = r.season) := by omega
    have h3 : ¬ ((3 : Int) = r.season) := by omega
    have h4 : ¬ ((4 : Int) = r.season) := by omega
    simp [pyMapS, season_mapping, List.find?, h1, h2, h3, h4]

/-- C3 witness: the amended statement at the concrete out-of-range
row `rowS5`. -/
theorem season_mapping_in_range_unique_label_witness :
    ∃ e, enrichRow rowS5 = .ok e ∧
      (rowS5.season = 1 → e.season_cat = PyV.str "Spring") ∧
      (rowS5.season = 2 → e.season_cat = PyV.str "Summer") ∧
      (rowS5.season = 3 → e.season_cat = PyV.str "Fall") ∧
      (rowS5.season = 4 → e.season_cat = PyV.str "Winter") ∧
      (¬ (1 ≤ rowS5.season ∧ rowS5.season ≤ 4) → e.season_cat = PyV.nan) :=
  season_mapping_in_range_unique_label rowS5 (by decide) (by decide)

/-- C8: on the concrete two-row table `{season=1, weather=1,
casual=10, registered=90, cnt=100}` and `{season=1, weather=2,
casual=5, registered=45, cnt=50}`, aggregating `cnt` by the weather
label with the mean reducer yields exactly
`[("Clear/Few clouds", 100), ("Mist/Cloudy", 50)]`. -/
theorem weather_mean_concrete :
    weather_data tabW
      = [("Clear/Few clouds", (100:ℚ)), ("Mist/Cloudy", (50:ℚ))] := by
  have hkeys : groupKeys (fun r => r.weather_cat) tabW
      = ["Clear/Few clouds", "Mist/Cloudy"] := by decide
  have hm1 : (groupRows (fun r => r.weather_cat) "Clear/Few clouds" tabW).map
      cntQ = [(100:ℚ)] := by decide
  have hm2 : (groupRows (fun r => r.weather_cat) "Mist/Cloudy" tabW).map
      cntQ = [(50:ℚ)] := by decide
  have hg1 : listMean ((groupRows (fun r => r.weather_cat)
      "Clear/Few clouds" tabW).map cntQ) = 100 := by
    rw [hm1]; norm_num [listMean]
  have hg2 : listMean ((groupRows (fun r => r.weather_cat)
      "Mist/Cloudy" tabW).map cntQ) = 50 := by
    rw [hm2]; norm_num [listMean]
  unfold weather_data groupbyMean
  rw [hkeys]
  simp [hg1, hg2]

/-- Membership after inserting into a sorted string list. -/
theorem mem_insertSortedStr (x a : String) (l : List String) :
    a ∈ insertSortedStr x l ↔ a = x ∨ a ∈ l := by
  induction l with
  | nil => simp [insertSortedStr]
  | cons y ys ih =>
      by_cases h : strLe x y = true
      · simp [insertSortedStr, h]
      · simp [insertSortedStr, h, ih]
        tauto

/-- Sorting does not change membership. -/
theorem mem_sortStrs (a : String) (l : List String) :
    a ∈ sortStrs l ↔ a ∈ l := by
  induction l with
  | nil => simp [sortStrs]
  | cons x xs ih => simp [sortStrs, mem_insertSortedStr, ih]

/-- Inserting a fresh string preserves distinctness. -/
theorem nodup_insertSortedStr (x : String) (l : List String)
    (hx : x ∉ l) (hl : l.Nodup) : (insertSortedStr x l).Nodup := by
  induction l with
  | nil => simp [insertSortedStr]
  | cons y ys ih =>
      rcases List.nodup_cons.mp hl with ⟨hy, hys⟩
      by_cases h : strLe x y = true
      · rw [insertSortedStr, if_pos h]
        exact List.nodup_cons.mpr ⟨hx, hl⟩
      · rw [insertSortedStr, if_neg h]
        have hxy : x ≠ y := fun he => hx (he ▸ List.mem_cons_self _ _)
        have hxys : x ∉ ys := fun hh => hx (List.mem_cons_of_mem _ hh)
        refine List.nodup_cons.mpr ⟨?_, ih hxys hys⟩
        rw [mem_insertSortedStr]
        rintro (he | hm)
        · exact hxy he.symm
        · exact hy hm

/-- Sorting preserves distinctness. -/
theorem nodup_sortStrs (l : List String) (hl : l.Nodup) :
    (sortStrs l).Nodup := by
  induction l with
  | nil => simp [sortStrs]
  | cons x xs ih =>
      rcases List.nodup_cons.mp hl with ⟨hx, hxs⟩
      exact nodup_insertSortedStr x (sortStrs xs)
        (fun hh => hx ((mem_sortStrs x xs).mp hh)) (ih hxs)

/-- The string payload characterised. -/
theorem asStr_eq_some (v : PyV) (s : String) :
    asStr v = some s ↔ v = PyV.str s := by
  cases v <;> simp [asStr]

/-- A string is a group key exactly when some row carries it. -/
theorem mem_groupKeys (key : ERow → PyV) (t : List ERow) (k : String) :
    k ∈ groupKeys key t ↔ ∃ r ∈ t, key r = PyV.str k := by
  unfold groupKeys
  rw [mem_sortStrs, List.mem_dedup]
  unfold keyStrs
  simp [List.mem_filterMap, asStr_eq_some]

/-- The group keys are distinct. -/
theorem nodup_groupKeys (key : ERow → PyV) (t : List ERow) :
    (groupKeys key t).Nodup :=
  nodup_sortStrs _ (List.nodup_dedup _)

/-- Unfolding one row of a group filter. -/
theorem groupRows_cons (key : ERow → PyV) (k : String) (a : ERow)
    (l : List ERow) :
    groupRows key k (a :: l)
      = if key a = PyV.str k then a :: groupRows key k l
        else groupRows key k l := by
  by_cases h : key a = PyV.str k
  · simp [groupRows, List.filter_cons, h]
  · simp [groupRows, List.filter_cons, h]

/-- Unfolding one row of the complement filter of a group. -/
theorem filterNotKey_cons (key : ERow → PyV) (k : String) (a : ERow)
    (l : List ERow) :
    (a :: l).filter (fun r => !(decide (key r = PyV.str k)))
      = if key a = PyV.str k
        then l.filter (fun r => !(decide (key r = PyV.str k)))
        else a :: l.filter (fun r => !(decide (key r = PyV.str k))) := by
  by_cases h : key a = PyV.str k
  · simp [List.filter_cons, h]
  · simp [List.filter_cons, h]

/-- Splitting the metric total along a Boolean predicate. -/
theorem filter_sum_split (p : ERow → Bool) (m : ERow → ℚ) (l : List ERow) :
    ((l.filter p).map m).sum + ((l.filter (fun a => !(p a))).map m).sum
      = (l.map m).sum := by
  induction l with
  | nil => simp
  | cons a l ih =>
      by_cases h : p a = true
      · simp [List.filter_cons, h]
        rw [← ih]; ring
      · have hb : p a = false := by
          rwa [Bool.not_eq_true] at h
        simp [List.filter_cons, hb]
        rw [← ih]; ring

/-- Deleting the rows of one group leaves every other group intact. -/
theorem groupRows_erase_other (key : ERow → PyV) (k k' : String)
    (hkk : k' ≠ k) (t : List ERow) :
    groupRows key k' (t.filter (fun r => !(decide (key r = PyV.str k))))
      = groupRows key k' t := by
  induction t with
  | nil => rfl
  | cons a l ih =>
      rw [filterNotKey_cons key k a l]
      by_cases h : key a = PyV.str k
      · have h' : ¬ (key a = PyV.str k') := by
          rw [h]; intro hc; exact hkk (PyV.str.inj hc).symm
        rw [if_pos h, ih, groupRows_cons, if_neg h']
      · rw [if_neg h, groupRows_cons, groupRows_cons, ih]

/-- Partition of the metric total over a distinct covering key list. -/
theorem groups_total (key : ERow → PyV) (metric : ERow → ℚ) :
    ∀ (ks : List String) (t : List ERow), ks.Nodup →
      (∀ r ∈ t, ∃ k, k ∈ ks ∧ key r = PyV.str k) →
      (ks.map (fun k => ((groupRows key k t).map metric).sum)).sum
        = (t.map metric).sum := by
  intro ks
  induction ks with
  | nil =>
      intro t _ hcov
      cases t with
      | nil => simp
      | cons a l =>
          obtain ⟨k, hk, _⟩ := hcov a (List.mem_cons_self a l)
          exact absurd hk (List.not_mem_nil k)
  | cons k ks ih =>
      intro t hnd hcov
      rcases List.nodup_cons.mp hnd with ⟨hknotin, hndks⟩
      have hstep : ∀ k' ∈ ks,
          ((groupRows key k' t).map metric).sum
            = ((groupRows key k'
                (t.filter (fun r => !(decide (key r = PyV.str k))))).map
                metric).sum := by
        intro k' hk'
        rw [groupRows_erase_other key k k' (fun he => hknotin (he ▸ hk')) t]
      have hcov' : ∀ r ∈ t.filter (fun r => !(decide (key r = PyV.str k))),
          ∃ k', k' ∈ ks ∧ key r = PyV.str k' := by
        intro r hr
        rcases List.mem_filter.mp hr with ⟨hrt, hcond⟩
        obtain ⟨k'', hk'', hkey⟩ := hcov r hrt
        rcases List.mem_cons.mp hk'' with he | hm
        · exfalso
          rw [he] at hkey
          simp [hkey] at hcond
        · exact ⟨k'', hm, hkey⟩
      rw [List.map_cons, List.sum_cons, List.map_congr_left hstep,
        ih (t.filter (fun r => !(decide (key r = PyV.str k)))) hndks hcov']
      have hsplit := filter_sum_split
        (fun r => decide (key r = PyV.str k)) metric t
      simpa [groupRows] using hsplit

/-- C7: with every key cell a string, group-by-mean yields exactly
one row per distinct key present in the input, and the sum over
groups of group size times group mean recovers the raw metric total. -/
theorem aggregate_mean_consistency (key : ERow → PyV) (metric : ERow → ℚ)
    (t : List ERow) (_hne : t ≠ [])
    (hdef : ∀ r ∈ t, (asStr (key r)).isSome = true) :
    ((groupbyMean key metric t).map Prod.fst).Nodup ∧
    (∀ k, k ∈ (groupbyMean key metric t).map Prod.fst ↔
      ∃ r ∈ t, key r = PyV.str k) ∧
    ((groupbyMean key metric t).map
        (fun p => ((groupRows key p.1 t).length : ℚ) * p.2)).sum
      = (t.map metric).sum := by
  have hfst : (groupbyMean key metric t).map Prod.fst = groupKeys key t := by
    simp [groupbyMean, List.map_map, Function.comp_def]
  refine ⟨?_, ?_, ?_⟩
  · rw [hfst]; exact nodup_groupKeys key t
  · intro k; rw [hfst]; exact mem_groupKeys key t k
  · rw [groupbyMean, List.map_map]
    have hpt : ∀ k ∈ groupKeys key t,
        ((fun p : String × ℚ => ((groupRows key p.1 t).length : ℚ) * p.2) ∘
          (fun k => (k, listMean ((groupRows key k t).map metric)))) k
          = ((groupRows key k t).map metric).sum := by
      intro k hk
      obtain ⟨r, hrt, hkey⟩ := (mem_groupKeys key t k).mp hk
      have hmem : r ∈ groupRows key k t := by
        rw [groupRows, List.mem_filter]
        exact ⟨hrt, by simp [hkey]⟩
      have hlen : (groupRows key k t).length ≠ 0 := by
        intro h0
        rw [List.length_eq_zero] at h0
        rw [h0] at hmem
        exact List.not_mem_nil r hmem
      have hlenq : ((groupRows key k t).length : ℚ) ≠ 0 := by
        exact_mod_cast hlen
      simp only [Function.comp_apply, listMean, List.length_map]
      rw [mul_comm, div_mul_cancel₀ _ hlenq]
    rw [List.map_congr_left hpt]
    apply groups_total key metric (groupKeys key t) t (nodup_groupKeys key t)
    intro r hr
    obtain ⟨s, hs⟩ := Option.isSome_iff_exists.mp (hdef r hr)
    exact ⟨s, (mem_groupKeys key t s).mpr ⟨r, hr, (asStr_eq_some _ _).mp hs⟩,
      (asStr_eq_some _ _).mp hs⟩

/-- C7 witness: the aggregation consistency statement at the
concrete two-row weather aggregation. -/
theorem aggregate_mean_consistency_witness :
    ((groupbyMean (fun r => r.weather_cat) cntQ tabW).map Prod.fst).Nodup ∧
    (∀ k, k ∈ (groupbyMean (fun r => r.weather_cat) cntQ tabW).map Prod.fst ↔
      ∃ r ∈ tabW, (fun r : ERow => r.weather_cat) r = PyV.str k) ∧
    ((groupbyMean (fun r => r.weather_cat) cntQ tabW).map
        (fun p => ((groupRows (fun r => r.weather_cat) p.1 tabW).length : ℚ)
          * p.2)).sum
      = (tabW.map cntQ).sum :=
  aggregate_mean_consistency (fun r => r.weather_cat) cntQ tabW
    (by decide) (by decide)

/-- `find?` with an equality predicate returns the sought element
exactly when it is present. -/
theorem find?_eq_self (k : String) (ks : List String) :
    ks.find? (fun k' => decide (k' = k))
      = if k ∈ ks then some k else none := by
  induction ks with
  | nil => simp
  | cons a ks ih =>
      by_cases h : a = k
      · subst h
        rw [List.find?_cons_of_pos _ (by simp)]
        simp
      · rw [List.find?_cons_of_neg _ (by simp [h]), ih]
        by_cases hm : k ∈ ks
        · simp [hm, List.mem_cons]
        · simp [hm, List.mem_cons, Ne.symm h]

/-- `find?` on a key-tagged map of a key list. -/
theorem find?_pair_map (ks : List String) (f : String → ℚ) (k : String) :
    (ks.map (fun k' => (k', f k'))).find? (fun p => decide (p.1 = k))
      = (ks.find? (fun k' => decide (k' = k))).map (fun k' => (k', f k')) := by
  induction ks with
  | nil => rfl
  | cons a ks ih =>
      by_cases h : a = k
      · subst h
        rw [List.map_cons, List.find?_cons_of_pos _ (by simp),
          List.find?_cons_of_pos _ (by simp)]
        rfl
      · rw [List.map_cons, List.find?_cons_of_neg _ (by simp [h]),
          List.find?_cons_of_neg _ (by simp [h]), ih]

/-- Pointwise-equal functions give the same `filterMap`. -/
theorem filterMap_congr_mem {α β : Type} (l : List α) (f g : α → Option β)
    (h : ∀ a ∈ l, f a = g a) : l.filterMap f = l.filterMap g := by
  induction l with
  | nil => rfl
  | cons a l ih =>
      rw [List.filterMap_cons, List.filterMap_cons, h a (by simp),
        ih (fun x hx => h x (by simp [hx]))]

/-- A `filterMap` that tags each kept element with its source key
produces a key list that is a sublist of the scanned list. -/
theorem filterMap_fst_sublist (l : List String)
    (f : String → Option (String × ℚ))
    (hf : ∀ d p, f d = some p → p.1 = d) :
    List.Sublist ((l.filterMap f).map Prod.fst) l := by
  induction l with
  | nil => simp
  | cons a l ih =>
      rw [List.filterMap_cons]
      cases hfa : f a with
      | none => exact List.Sublist.cons a ih
      | some p =>
          rw [List.map_cons, hf a p hfa]
          exact List.Sublist.cons₂ a ih

/-- A group is empty exactly when no row carries its key. -/
theorem groupRows_eq_nil (key : ERow → PyV) (k : String) (t : List ERow) :
    groupRows key k t = [] ↔ ∀ r ∈ t, ¬ (key r = PyV.str k) := by
  rw [groupRows, List.filter_eq_nil_iff]
  simp

/-- The weekday aggregation characterised: scanning `days_order` in
canonical order and emitting the group mean for each day present in
the table. -/
theorem weekday_data_char (t : List ERow)
    (hdef : ∀ r ∈ t, weekdayNameOk r = true) :
    weekday_data t = days_order.filterMap (fun d =>
      if groupRows (fun r => r.weekday_name) d t = [] then none
      else some (d, listMean ((groupRows (fun r => r.weekday_name) d t).map
        cntQ))) := by
  unfold weekday_data catSort
  have hsub : ∀ p ∈ groupbyMean (fun r => r.weekday_name) cntQ t,
      days_order.contains p.1 = true := by
    intro p hp
    have hfst : p.1 ∈ groupKeys (fun r => r.weekday_name) t := by
      unfold groupbyMean at hp
      obtain ⟨k, hk, he⟩ := List.mem_map.mp hp
      rw [← he]
      exact hk
    obtain ⟨r, hrt, hkey⟩ := (mem_groupKeys _ t p.1).mp hfst
    have hok := hdef r hrt
    rw [weekdayNameOk] at hok
    rw [hkey] at hok
    exact hok
  have hnil : (groupbyMean (fun r => r.weekday_name) cntQ t).filter
      (fun p => !(days_order.contains p.1)) = [] := by
    rw [List.filter_eq_nil_iff]
    intro p hp
    rw [hsub p hp]
    simp
  rw [hnil, List.append_nil]
  apply filterMap_congr_mem
  intro d _
  rw [groupbyMean, find?_pair_map, find?_eq_self]
  by_cases hd : groupRows (fun r => r.weekday_name) d t = []
  · rw [if_neg, if_pos hd]
    · rfl
    · rw [mem_groupKeys]
      rintro ⟨r, hrt, hkey⟩
      exact (groupRows_eq_nil _ d t).mp hd r hrt hkey
  · rw [if_pos, if_neg hd]
    · rfl
    · rw [mem_groupKeys]
      obtain ⟨r, hr⟩ := List.exists_mem_of_ne_nil _ hd
      simp only [groupRows] at hr
      rcases List.mem_filter.mp hr with ⟨hrt, hcond⟩
      exact ⟨r, hrt, of_decide_eq_true hcond⟩

/-- C6: the weekday aggregation lists its rows in the canonical
Monday-first order (its key column is an in-order selection of
`days_order`), and the whole result is invariant under any
permutation of the input rows. -/
theorem weekday_order_canonical_perm_invariant (t t' : List ERow)
    (hperm : List.Perm t t')
    (hdef : ∀ r ∈ t, weekdayNameOk r = true) :
    List.Sublist ((weekday_data t).map Prod.fst) days_order ∧
    weekday_data t = weekday_data t' := by
  have hdef' : ∀ r ∈ t', weekdayNameOk r = true := fun r hr =>
    hdef r (hperm.mem_iff.mpr hr)
  constructor
  · rw [weekday_data_char t hdef]
    apply filterMap_fst_sublist
    intro d p hp
    by_cases h : groupRows (fun r => r.weekday_name) d t = []
    · rw [if_pos h] at hp
      cases hp
    · rw [if_neg h] at hp
      cases hp
      rfl
  · rw [weekday_data_char t hdef, weekday_data_char t' hdef']
    apply filterMap_congr_mem
    intro d _
    have hfil : List.Perm (groupRows (fun r => r.weekday_name) d t)
        (groupRows (fun r => r.weekday_name) d t') :=
      hperm.filter _
    have hnil : groupRows (fun r => r.weekday_name) d t = [] ↔
        groupRows (fun r => r.weekday_name) d t' = [] := by
      rw [← List.length_eq_zero, ← List.length_eq_zero, hfil.length_eq]
    have hmean : listMean ((groupRows (fun r => r.weekday_name) d t).map cntQ)
        = listMean ((groupRows (fun r => r.weekday_name) d t').map cntQ) := by
      unfold listMean
      rw [(hfil.map cntQ).sum_eq, (hfil.map cntQ).length_eq]
    by_cases h : groupRows (fun r => r.weekday_name) d t = []
    · rw [if_pos h, if_pos (hnil.mp h)]
    · rw [if_neg h, if_neg (fun hh => h (hnil.mpr hh)), hmean]

/-- C6 witness: order and permutation invariance at a concrete
two-row table and its transposition. -/
theorem weekday_order_canonical_perm_invariant_witness :
    List.Sublist ((weekday_data [sampleERow, sampleERow2]).map Prod.fst)
      days_order ∧
    weekday_data [sampleERow, sampleERow2]
      = weekday_data [sampleERow2, sampleERow] :=
  weekday_order_canonical_perm_invariant [sampleERow, sampleERow2]
    [sampleERow2, sampleERow] (by decide) (by decide)

/-- `unique()` only returns values occurring in the column. -/
theorem mem_uniqueFSAux (l : List PyV) :
    ∀ (seen : List PyV) (x : PyV), x ∈ uniqueFSAux seen l → x ∈ l := by
  induction l with
  | nil => intro seen x h; cases h
  | cons v rest ih =>
      intro seen x h
      rw [uniqueFSAux] at h
      by_cases hs : seen.contains v = true
      · rw [if_pos hs] at h
        exact List.mem_cons_of_mem v (ih seen x h)
      · rw [if_neg hs] at h
        rcases List.mem_cons.mp h with he | hm
        · exact he ▸ List.mem_cons_self x rest
        · exact List.mem_cons_of_mem v (ih (v :: seen) x hm)

/-- `unique()` over the whole column only returns column values. -/
theorem mem_uniqueFS (l : List PyV) (x : PyV) (h : x ∈ uniqueFS l) :
    x ∈ l :=
  mem_uniqueFSAux l [] x h

/-- Pandas equality holds only between equal non-NaN values. -/
theorem pyEq_true_iff (a b : PyV) :
    pyEq a b = true ↔ a = b ∧ b ≠ PyV.nan := by
  cases a <;> cases b <;> simp [pyEq]

/-- C10: the year selector offers no `'All'` entry (unlike the
season and weather selectors), and whichever offered value is
selected, the year filter is applied (every offered value is truthy)
and every surviving row carries exactly the selected year. -/
theorem year_filter_always_applied (t : List ERow)
    (hok : ∀ r ∈ t, r.year = PyV.int 2011 ∨ r.year = PyV.int 2012 ∨
      r.year = PyV.nan) :
    PyV.str "All" ∉ year_options t ∧
    PyV.str "All" ∈ season_options t ∧
    PyV.str "All" ∈ weather_options t ∧
    ∀ sel ∈ year_options t, ∀ r ∈ yearFiltered t sel, r.year = sel := by
  refine ⟨?_, List.mem_cons_self _ _, List.mem_cons_self _ _, ?_⟩
  · intro hmem
    have hx : PyV.str "All" ∈ t.map (fun r => r.year) :=
      mem_uniqueFS _ _ hmem
    obtain ⟨r, hr, hy⟩ := List.mem_map.mp hx
    rcases hok r hr with h | h | h <;> rw [h] at hy <;> cases hy
  · intro sel hsel r hr
    have hsel' : sel ∈ t.map (fun r => r.year) :=
      mem_uniqueFS _ _ hsel
    obtain ⟨r0, hr0, hy0⟩ := List.mem_map.mp hsel'
    have htr : pyTruthy sel = true := by
      rcases hok r0 hr0 with h | h | h <;> rw [← hy0, h] <;> rfl
    rw [yearFiltered, if_pos htr] at hr
    have hm := List.mem_filter.mp hr
    exact ((pyEq_true_iff r.year sel).mp hm.2).1

/-- C10 witness: the year-filter invariants at a concrete two-row
table and each of its offered year values. -/
theorem year_filter_always_applied_witness :
    PyV.str "All" ∉ year_options [sampleERow, sampleERow2] ∧
    PyV.str "All" ∈ season_options [sampleERow, sampleERow2] ∧
    PyV.str "All" ∈ weather_options [sampleERow, sampleERow2] ∧
    ∀ sel ∈ year_options [sampleERow, sampleERow2],
      ∀ r ∈ yearFiltered [sampleERow, sampleERow2] sel, r.year = sel :=
  year_filter_always_applied [sampleERow, sampleERow2] (by decide)

/-- Reading a frame one named column at a time. -/
theorem dfGet_cons (p : String × Col) (df : DF) (cq : String) :
    dfGet (p :: df) cq = if p.1 = cq then some p.2 else dfGet df cq := by
  by_cases h : p.1 = cq
  · rw [if_pos h, dfGet, List.find?_cons_of_pos _ (by simp [h])]
    rfl
  · rw [if_neg h, dfGet, dfGet, List.find?_cons_of_neg _ (by simp [h])]

/-- Appending a differently named column does not change a read. -/
theorem dfGet_append_ne (df : DF) (c cq : String) (v : Col)
    (hne : cq ≠ c) :
    dfGet (df ++ [(c, v)]) cq = dfGet df cq := by
  induction df with
  | nil =>
      rw [List.nil_append, dfGet_cons, if_neg (fun h => hne h.symm)]
  | cons p df ih =>
      rw [List.cons_append, dfGet_cons, dfGet_cons, ih]

/-- A present column name reads to some column. -/
theorem mem_dfCols_get (df : DF) (c : String) (h : c ∈ dfCols df) :
    ∃ col, dfGet df c = some col := by
  induction df with
  | nil => cases h
  | cons p df ih =>
      rw [dfGet_cons]
      by_cases hp : p.1 = c
      · rw [if_pos hp]
        exact ⟨p.2, rfl⟩
      · rw [if_neg hp]
        apply ih
        rw [dfCols, List.map_cons] at h
        rcases List.mem_cons.mp h with he | hm
        · exact absurd he.symm hp
        · exact hm

/-- Assigning a fresh column name appends it. -/
theorem dfAssign_new (df : DF) (c : String) (v : Col)
    (h : c ∉ dfCols df) :
    dfAssign df c v = df ++ [(c, v)] := by
  rw [dfAssign, if_neg h]

/-- Column names after appending one named column. -/
theorem dfCols_append_single (df : DF) (c : String) (v : Col) :
    dfCols (df ++ [(c, v)]) = dfCols df ++ [c] := by
  simp [dfCols]

/-- One fresh assignment: the new name goes last, all other reads
are untouched. -/
theorem dfAssign_step (df : DF) (c : String) (v : Col)
    (h : c ∉ dfCols df) :
    dfCols (dfAssign df c v) = dfCols df ++ [c] ∧
    ∀ cq, cq ≠ c → dfGet (dfAssign df c v) cq = dfGet df cq := by
  rw [dfAssign_new df c v h]
  exact ⟨dfCols_append_single df c v,
    fun cq hq => dfGet_append_ne df c cq v hq⟩

/-- The month column transform succeeds on indexable month cells. -/
theorem applyMonthName_ok (col : Col)
    (h : ∀ v ∈ col, cellMonthOk v = true) :
    ∃ out, applyMonthName col = .ok out := by
  induction col with
  | nil => exact ⟨[], rfl⟩
  | cons v rest ih =>
      obtain ⟨out, hout⟩ := ih (fun x hx => h x (List.mem_cons_of_mem v hx))
      have hv := h v (List.mem_cons_self v rest)
      obtain ⟨s, hs⟩ : ∃ s, cellMonthName v = .ok s := by
        cases v with
        | int n =>
            simp only [cellMonthOk] at hv
            have hr := of_decide_eq_true hv
            simp only [cellMonthName, pyMonthName]
            by_cases hc : 0 ≤ n ∧ n < 13
            · rw [if_pos hc]
              exact ⟨_, rfl⟩
            · rw [if_neg hc, if_pos (⟨hr.1, by omega⟩ : -13 ≤ n ∧ n < 0)]
              exact ⟨_, rfl⟩
        | str s => simp [cellMonthOk] at hv
        | rat q => simp [cellMonthOk] at hv
        | nan => simp [cellMonthOk] at hv
      refine ⟨s :: out, ?_⟩
      simp only [applyMonthName, hs, hout, Bind.bind, Except.bind]

/-- C2: on a valid input frame (required columns present, derived
names absent, month cells indexable), enrichment succeeds, appends
exactly the five derived label columns after the existing ones, has
strictly more columns than the input, and reads of every input
column — `dteday` included — are unchanged. -/
theorem enrich_adds_only_derived (df : DF)
    (hreq : ∀ c ∈ requiredCols, c ∈ dfCols df)
    (hnew : ∀ c ∈ derivedCols, c ∉ dfCols df)
    (hmonth : ∀ v ∈ (dfGet df "mnth").getD [], cellMonthOk v = true) :
    ∃ df2, enrich df = .ok df2 ∧
      dfCols df2 = dfCols df ++ derivedCols ∧
      (dfCols df).length < (dfCols df2).length ∧
      (∀ c ∈ dfCols df, dfGet df2 c = dfGet df c) ∧
      dfGet df2 "dteday" = dfGet df "dteday" := by
  obtain ⟨mcol, hm⟩ := mem_dfCols_get df "mnth" (hreq "mnth" (by decide))
  have hmonth' : ∀ v ∈ mcol, cellMonthOk v = true := by
    rw [hm] at hmonth
    simpa using hmonth
  obtain ⟨mout, hmo⟩ := applyMonthName_ok mcol hmonth'
  obtain ⟨wcol, hw⟩ := mem_dfCols_get df "weekday"
    (hreq "weekday" (by decide))
  obtain ⟨scol, hs⟩ := mem_dfCols_get df "season"
    (hreq "season" (by decide))
  obtain ⟨wecol, hwe⟩ := mem_dfCols_get df "weathersit"
    (hreq "weathersit" (by decide))
  obtain ⟨ycol, hy⟩ := mem_dfCols_get df "yr" (hreq "yr" (by decide))
  obtain ⟨hc1, hg1⟩ := dfAssign_step df "month_name" mout
    (hnew "month_name" (by decide))
  have hf2 : "weekday_name" ∉ dfCols (dfAssign df "month_name" mout) := by
    rw [hc1]
    intro hmem
    rcases List.mem_append.mp hmem with hmem | hmem
    · exact hnew "weekday_name" (by decide) hmem
    · simp at hmem
  obtain ⟨hc2, hg2⟩ := dfAssign_step (dfAssign df "month_name" mout)
    "weekday_name" (mapColS weekday_mapping wcol) hf2
  have hf3 : "season_cat" ∉ dfCols (dfAssign (dfAssign df "month_name" mout)
      "weekday_name" (mapColS weekday_mapping wcol)) := by
    rw [hc2, hc1]
    intro hmem
    rcases List.mem_append.mp hmem with hmem | hmem
    · rcases List.mem_append.mp hmem with hmem | hmem
      · exact hnew "season_cat" (by decide) hmem
      · simp at hmem
    · simp at hmem
  obtain ⟨hc3, hg3⟩ := dfAssign_step (dfAssign (dfAssign df "month_name"
      mout) "weekday_name" (mapColS weekday_mapping wcol))
    "season_cat" (mapColS season_mapping scol) hf3
  have hf4 : "weather_cat" ∉ dfCols (dfAssign (dfAssign (dfAssign df
      "month_name" mout) "weekday_name" (mapColS weekday_mapping wcol))
      "season_cat" (mapColS season_mapping scol)) := by
    rw [hc3, hc2, hc1]
    intro hmem
    rcases List.mem_append.mp hmem with hmem | hmem
    · rcases List.mem_append.mp hmem with hmem | hmem
      · rcases List.mem_append.mp hmem with hmem | hmem
        · exact hnew "weather_cat" (by decide) hmem
        · simp at hmem
      · simp at hmem
    · simp at hmem
  obtain ⟨hc4, hg4⟩ := dfAssign_step (dfAssign (dfAssign (dfAssign df
      "month_name" mout) "weekday_name" (mapColS weekday_mapping wcol))
      "season_cat" (mapColS season_mapping scol))
    "weather_cat" (mapColS weather_mapping wecol) hf4
  have hf5 : "year" ∉ dfCols (dfAssign (dfAssign (dfAssign (dfAssign df
      "month_name" mout) "weekday_name" (mapColS weekday_mapping wcol))
      "season_cat" (mapColS season_mapping scol))
      "weather_cat" (mapColS weather_mapping wecol)) := by
    rw [hc4, hc3, hc2, hc1]
    intro hmem
    rcases List.mem_append.mp hmem with hmem | hmem
    · rcases List.mem_append.mp hmem with hmem | hmem
      · rcases List.mem_append.mp hmem with hmem | hmem
        · rcases List.mem_append.mp hmem with hmem | hmem
          · exact hnew "year" (by decide) hmem
          · simp at hmem
        · simp at hmem
      · simp at hmem
    · simp at hmem
  obtain ⟨hc5, hg5⟩ := dfAssign_step (dfAssign (dfAssign (dfAssign
      (dfAssign df "month_name" mout) "weekday_name"
      (mapColS weekday_mapping wcol)) "season_cat"
      (mapColS season_mapping scol)) "weather_cat"
      (mapColS weather_mapping wecol))
    "year" (mapColI year_mapping ycol) hf5
  have hge1 : dfGetE df "mnth" = .ok mcol := by
    simp only [dfGetE, hm]
  have hge2 : dfGetE (dfAssign df "month_name" mout) "weekday"
      = .ok wcol := by
    simp only [dfGetE, hg1 "weekday" (by decide), hw]
  have hge3 : dfGetE (dfAssign (dfAssign df "month_name" mout)
      "weekday_name" (mapColS weekday_mapping wcol)) "season"
      = .ok scol := by
    simp only [dfGetE, hg2 "season" (by decide), hg1 "season" (by decide),
      hs]
  have hge4 : dfGetE (dfAssign (dfAssign (dfAssign df "month_name" mout)
      "weekday_name" (mapColS weekday_mapping wcol)) "season_cat"
      (mapColS season_mapping scol)) "weathersit" = .ok wecol := by
    simp only [dfGetE, hg3 "weathersit" (by decide),
      hg2 "weathersit" (by decide), hg1 "weathersit" (by decide), hwe]
  have hge5 : dfGetE (dfAssign (dfAssign (dfAssign (dfAssign df
      "month_name" mout) "weekday_name" (mapColS weekday_mapping wcol))
      "season_cat" (mapColS season_mapping scol)) "weather_cat"
      (mapColS weather_mapping wecol)) "yr" = .ok ycol := by
    simp only [dfGetE, hg4 "yr" (by decide), hg3 "yr" (by decide),
      hg2 "yr" (by decide), hg1 "yr" (by decide), hy]
  have henr : enrich df = .ok (dfAssign (dfAssign (dfAssign (dfAssign
      (dfAssign df "month_name" mout) "weekday_name"
      (mapColS weekday_mapping wcol)) "season_cat"
      (mapColS season_mapping scol)) "weather_cat"
      (mapColS weather_mapping wecol)) "year"
      (mapColI year_mapping ycol)) := by
    simp only [enrich, hge1, hmo, hge2, hge3, hge4, hge5, Bind.bind,
      Except.bind]
  have hcols : dfCols (dfAssign (dfAssign (dfAssign (dfAssign
      (dfAssign df "month_name" mout) "weekday_name"
      (mapColS weekday_mapping wcol)) "season_cat"
      (mapColS season_mapping scol)) "weather_cat"
      (mapColS weather_mapping wecol)) "year"
      (mapColI year_mapping ycol)) = dfCols df ++ derivedCols := by
    rw [hc5, hc4, hc3, hc2, hc1]
    simp [derivedCols]
  have hpres : ∀ c ∈ dfCols df, dfGet (dfAssign (dfAssign (dfAssign
      (dfAssign (dfAssign df "month_name" mout) "weekday_name"
      (mapColS weekday_mapping wcol)) "season_cat"
      (mapColS season_mapping scol)) "weather_cat"
      (mapColS weather_mapping wecol)) "year"
      (mapColI year_mapping ycol)) c = dfGet df c := by
    intro c hc
    have hcm : ∀ nm ∈ derivedCols, c ≠ nm := fun nm hnm he =>
      hnew nm hnm (he ▸ hc)
    rw [hg5 c (hcm "year" (by decide)),
      hg4 c (hcm "weather_cat" (by decide)),
      hg3 c (hcm "season_cat" (by decide)),
      hg2 c (hcm "weekday_name" (by decide)),
      hg1 c (hcm "month_name" (by decide))]
  refine ⟨_, henr, hcols, ?_, hpres, hpres "dteday" (hreq "dteday"
    (by decide))⟩
  rw [hcols]
  simp [derivedCols]

/-- C2 witness: the enrichment frame statement at a concrete
one-row frame with exactly the required columns. -/
theorem enrich_adds_only_derived_witness :
    ∃ df2, enrich sampleDF = .ok df2 ∧
      dfCols df2 = dfCols sampleDF ++ derivedCols ∧
      (dfCols sampleDF).length < (dfCols df2).length ∧
      (∀ c ∈ dfCols sampleDF, dfGet df2 c = dfGet sampleDF c) ∧
      dfGet df2 "dteday" = dfGet sampleDF "dteday" :=
  enrich_adds_only_derived sampleDF (by decide) (by decide) (by decide)
